import Mathlib

/-!
Verification of the failing-policy webhook trigger cycle
(`TriggerFailingPoliciesWebhook`, `FailingPoliciesPayload`, `FailingHost`,
`makeFailingHost` in package `webhooks`).

The Go function is embedded shallowly: the external collaborators
(policy catalog `ds.Policy`, `FailingPolicySet.ListHosts` / `RemoveHosts`,
the HTTP transport `server.PostJSONWithTimeout`) are modelled as
deterministic response oracles, and the cycle is a pure function that
returns the ordered trace of collaborator calls it performed together
with the error it returns, mirroring the Go control flow line by line.
-/

namespace Webhooks

/-- Modelled from the spec: `service.PolicySetHost` is not under src (only its
use in `makeFailingHost` is); per §3 a failing-set member carries the host
identifier and the hostname. -/
structure PolicySetHost where
  ID : Nat
  Hostname : String
  deriving DecidableEq, Repr

/-- Modelled from the spec: the `fleet.Policy` record type is not under src;
§3 lists identifier, name, description, remediation text, declarative query,
platform tag, purpose classification. It is opaque data to the cycle. -/
structure Policy where
  ID : Nat
  Name : String
  Description : String
  Resolution : String
  Query : String
  Platform : String
  deriving DecidableEq, Repr

/-- `FailingHost` (src/unnamed/part_001 lines 75-79). -/
structure FailingHost where
  ID : Nat
  Hostname : String
  URL : String
  deriving DecidableEq, Repr

/-- `FailingPoliciesPayload` (src/unnamed/part_001 lines 69-73); `time.Time`
is modelled as an abstract tick (Nat). -/
structure FailingPoliciesPayload where
  Timestamp : Nat
  Policy : Policy
  FailingHosts : List FailingHost
  deriving DecidableEq, Repr

/-- `AppConfig.WebhookSettings.FailingPoliciesWebhook`: the fields the cycle
reads (enable flag, ordered monitored policy identifiers, destination). -/
structure FailingPoliciesWebhookSettings where
  Enable : Bool
  DestinationURL : String
  PolicyIDs : List Nat
  deriving DecidableEq, Repr

structure WebhookSettings where
  FailingPoliciesWebhook : FailingPoliciesWebhookSettings
  deriving DecidableEq, Repr

structure ServerSettings where
  ServerURL : String
  deriving DecidableEq, Repr

/-- The slice of `fleet.AppConfig` read by the cycle. -/
structure AppConfig where
  WebhookSettings : WebhookSettings
  ServerSettings : ServerSettings
  deriving DecidableEq, Repr

/-! ### Go `path.Clean` and `path.Join`

`makeFailingHost` builds the host URL with
`path.Join(fleetServerURL, "hosts", strconv.Itoa(int(host.ID)))`.
Go `path.Join` joins the elements starting at the first non-empty one with
a slash and then applies `path.Clean`, which lexically removes repeated
slashes, `.` elements and resolvable `..` elements. -/

/-- Split a character sequence at every slash (Go treats paths as byte
sequences; the separator is ASCII `/`). Adjacent separators yield empty
components, as in Go. -/
def splitSlash : List Char → List (List Char)
  | [] => [[]]
  | c :: cs =>
    match splitSlash cs with
    | [] => [[c]]
    | g :: gs => if c = '/' then [] :: g :: gs else (c :: g) :: gs

/-- Join components with single slashes. -/
def joinSlash : List (List Char) → List Char
  | [] => []
  | [g] => g
  | g :: gs => g ++ '/' :: joinSlash gs

/-- One step of Go `path.Clean`: push a path element onto the (reversed)
output stack, resolving `..` against it. `rooted` tells whether the whole
path began with a slash (a `..` at the root is dropped). -/
def cleanPush (rooted : Bool) (acc : List (List Char)) (c : List Char) :
    List (List Char) :=
  if c = ['.', '.'] then
    match acc with
    | [] => if rooted then [] else [['.', '.']]
    | t :: rest => if t = ['.', '.'] then c :: acc else rest
  else
    c :: acc

/-- Go `path.Clean` (lexical cleaning of a slash-separated path): drop
empty and `.` elements, resolve `..` elements against the output, keep
rootedness, and return `.` for an empty result. -/
def pathClean (p : String) : String :=
  if p = "" then "."
  else
    let cs := p.data
    let rooted : Bool := match cs with | '/' :: _ => true | _ => false
    let comps := (splitSlash cs).filter (fun c => !(c = [] || c = ['.']))
    let out := (comps.foldl (cleanPush rooted) []).reverse
    match out with
    | [] => if rooted then "/" else "."
    | _ => ⟨(if rooted then ['/'] else []) ++ joinSlash out⟩

/-- Go `path.Join`: drop leading empty elements, join the rest with slashes,
and clean the result (empty when every element is empty). -/
def pathJoin (elems : List String) : String :=
  match elems.dropWhile (fun e => e = "") with
  | [] => ""
  | es => pathClean ⟨joinSlash (es.map String.data)⟩

/-- `makeFailingHost` (src/unnamed/part_001 lines 81-87):
`URL = path.Join(fleetServerURL, "hosts", strconv.Itoa(int(host.ID)))`. -/
def makeFailingHost (host : PolicySetHost) (fleetServerURL : String) : FailingHost :=
  { ID := host.ID
    Hostname := host.Hostname
    URL := pathJoin [fleetServerURL, "hosts", toString host.ID] }

/-! ### The trigger cycle as a trace-producing interpreter -/

/-- Outcome of `ds.Policy(ctx, policyID)`: success, `sql.ErrNoRows`
(deleted policy), or any other store error. -/
inductive PolicyLookup where
  | found (p : Policy)
  | noRows
  | storeErr (msg : String)
  deriving DecidableEq, Repr

/-- The error the cycle returns (each Go branch wraps the underlying cause
with context via `ctxerr.Wrapf`). -/
inductive CycleErr where
  | policyLoad (pid : Nat) (msg : String)
  | listHosts (pid : Nat) (msg : String)
  | post (url : String) (msg : String)
  | removeHosts (pid : Nat) (msg : String)
  deriving DecidableEq, Repr

/-- A collaborator call performed by the cycle, tagged with the policy
identifier of the loop iteration that performed it. -/
inductive Event where
  | policyLookup (pid : Nat)
  | listHostsCall (pid : Nat)
  | postCall (pid : Nat) (url : String) (payload : FailingPoliciesPayload)
  | removeHostsCall (pid : Nat) (hosts : List PolicySetHost)
  deriving DecidableEq, Repr

/-- Deterministic response oracles for the four collaborators. -/
structure Env where
  policy : Nat → PolicyLookup
  listHosts : Nat → Except String (List PolicySetHost)
  post : String → FailingPoliciesPayload → Except String Unit
  removeHosts : Nat → List PolicySetHost → Except String Unit

/-- The body of the `for` loop of `TriggerFailingPoliciesWebhook`
(src/unnamed/part_001 lines 34-64) for one policy identifier: the calls it
performs, in order, and the fatal error it raises, if any (`none` covers
both the `continue` on `sql.ErrNoRows` and normal completion). -/
def processPolicy (env : Env) (cfg : AppConfig) (now : Nat) (pid : Nat) :
    List Event × Option CycleErr :=
  match env.policy pid with
  | .noRows => ([.policyLookup pid], none)
  | .storeErr msg => ([.policyLookup pid], some (.policyLoad pid msg))
  | .found policy =>
    match env.listHosts pid with
    | .error msg => ([.policyLookup pid, .listHostsCall pid], some (.listHosts pid msg))
    | .ok hosts =>
      let failingHosts := hosts.map (fun h => makeFailingHost h cfg.ServerSettings.ServerURL)
      let payload : FailingPoliciesPayload :=
        { Timestamp := now, Policy := policy, FailingHosts := failingHosts }
      let url := cfg.WebhookSettings.FailingPoliciesWebhook.DestinationURL
      match env.post url payload with
      | .error msg =>
        ([.policyLookup pid, .listHostsCall pid, .postCall pid url payload],
          some (.post url msg))
      | .ok _ =>
        match env.removeHosts pid hosts with
        | .error msg =>
          ([.policyLookup pid, .listHostsCall pid, .postCall pid url payload,
            .removeHostsCall pid hosts], some (.removeHosts pid msg))
        | .ok _ =>
          ([.policyLookup pid, .listHostsCall pid, .postCall pid url payload,
            .removeHostsCall pid hosts], none)

/-- The `for` loop over the configured policy identifiers: runs iterations
in order, stopping at the first fatal error (fail-fast `return`). -/
def runPolicies (env : Env) (cfg : AppConfig) (now : Nat) :
    List Nat → List Event × Option CycleErr
  | [] => ([], none)
  | pid :: rest =>
    match processPolicy env cfg now pid with
    | (evs, some e) => (evs, some e)
    | (evs, none) =>
      let r := runPolicies env cfg now rest
      (evs ++ r.1, r.2)

/-- `TriggerFailingPoliciesWebhook` (src/unnamed/part_001 lines 19-67):
returns `nil` immediately when the webhook is disabled, otherwise runs the
loop over `appConfig.WebhookSettings.FailingPoliciesWebhook.PolicyIDs`. -/
def TriggerFailingPoliciesWebhook (env : Env) (cfg : AppConfig) (now : Nat) :
    List Event × Option CycleErr :=
  if cfg.WebhookSettings.FailingPoliciesWebhook.Enable then
    runPolicies env cfg now cfg.WebhookSettings.FailingPoliciesWebhook.PolicyIDs
  else ([], none)

/-! ### JSON wire shape

`encoding/json` marshals a Go struct as an object whose members are the
exported fields in declaration order, named by their `json:"..."` tags.
The tags in src/unnamed/part_001: `FailingPoliciesPayload` has
`timestamp`, `policy`, `hosts` (lines 70-72) and `FailingHost` has `id`,
`hostname`, `url` (lines 76-78). -/

inductive Json where
  | num (n : Nat)
  | str (s : String)
  | arr (xs : List Json)
  | obj (fields : List (String × Json))
  deriving Repr

/-- Modelled from the spec: the JSON encoding of the external `fleet.Policy`
record (its struct tags are not under src); §6 only requires the `policy`
member to hold the full policy record. -/
def Policy.toJson (p : Policy) : Json :=
  .obj [("id", .num p.ID), ("name", .str p.Name),
        ("description", .str p.Description), ("resolution", .str p.Resolution),
        ("query", .str p.Query), ("platform", .str p.Platform)]

def FailingHost.toJson (h : FailingHost) : Json :=
  .obj [("id", .num h.ID), ("hostname", .str h.Hostname), ("url", .str h.URL)]

def FailingPoliciesPayload.toJson (p : FailingPoliciesPayload) : Json :=
  .obj [("timestamp", .num p.Timestamp),
        ("policy", p.Policy.toJson),
        ("hosts", .arr (p.FailingHosts.map FailingHost.toJson))]

/-- The member names of a JSON object, in order (`[]` on non-objects). -/
def jsonFieldNames : Json → List String
  | .obj fields => fields.map Prod.fst
  | _ => []

/-! ### The cycle against a stateful failing-policy set

To state properties that span several invocations, the shared
`FailingPolicySet` store is made explicit. -/

/-- Modelled from the spec: the `FailingPolicySet` store implementation is
not under src (only the interface is called); §4.1: a registry mapping a
policy identifier to its current failing hosts, with no notion of policy
existence (absence is the empty set). -/
def FPSet := Nat → List PolicySetHost

/-- Modelled from the spec (§4.1): `listHosts` returns a point-in-time
snapshot of the current membership of the policy. -/
def FPSet.listHosts (s : FPSet) (pid : Nat) : List PolicySetHost := s pid

/-- Modelled from the spec (§4.1): `removeHosts` removes exactly the given
host identifiers from the set of the named policy, ignoring absent ones. -/
def FPSet.removeHosts (s : FPSet) (pid : Nat) (hosts : List PolicySetHost) : FPSet :=
  fun q =>
    if q = pid then (s pid).filter (fun h => !(hosts.map PolicySetHost.ID).contains h.ID)
    else s q

/-- The loop of `TriggerFailingPoliciesWebhook` run against the stateful
store model: same control flow as `runPolicies`, with `ListHosts` and
`RemoveHosts` acting on the threaded `FPSet` state (their store errors do
not arise in this model); returns trace, final state and error. -/
def runPoliciesSet (getPolicy : Nat → PolicyLookup)
    (post : String → FailingPoliciesPayload → Except String Unit)
    (cfg : AppConfig) (now : Nat) :
    List Nat → FPSet → List Event × FPSet × Option CycleErr
  | [], s => ([], s, none)
  | pid :: rest, s =>
    match getPolicy pid with
    | .noRows =>
      let r := runPoliciesSet getPolicy post cfg now rest s
      (.policyLookup pid :: r.1, r.2)
    | .storeErr msg => ([.policyLookup pid], s, some (.policyLoad pid msg))
    | .found policy =>
      let hosts := s.listHosts pid
      let failingHosts := hosts.map (fun h => makeFailingHost h cfg.ServerSettings.ServerURL)
      let payload : FailingPoliciesPayload :=
        { Timestamp := now, Policy := policy, FailingHosts := failingHosts }
      let url := cfg.WebhookSettings.FailingPoliciesWebhook.DestinationURL
      match post url payload with
      | .error msg =>
        ([.policyLookup pid, .listHostsCall pid, .postCall pid url payload], s,
          some (.post url msg))
      | .ok _ =>
        let s2 := s.removeHosts pid hosts
        let r := runPoliciesSet getPolicy post cfg now rest s2
        ([.policyLookup pid, .listHostsCall pid, .postCall pid url payload,
          .removeHostsCall pid hosts] ++ r.1, r.2)

/-- `TriggerFailingPoliciesWebhook` against the stateful store model. -/
def TriggerOnSet (getPolicy : Nat → PolicyLookup)
    (post : String → FailingPoliciesPayload → Except String Unit)
    (cfg : AppConfig) (now : Nat) (s : FPSet) :
    List Event × FPSet × Option CycleErr :=
  if cfg.WebhookSettings.FailingPoliciesWebhook.Enable then
    runPoliciesSet getPolicy post cfg now
      cfg.WebhookSettings.FailingPoliciesWebhook.PolicyIDs s
  else ([], s, none)

/-! ### Trace observations -/

/-- The policy identifier of the loop iteration that performed a call. -/
def eventPid : Event → Nat
  | .policyLookup pid => pid
  | .listHostsCall pid => pid
  | .postCall pid _ _ => pid
  | .removeHostsCall pid _ => pid

/-- Whether an event is a delivery attempt (network post). -/
def isPost : Event → Bool
  | .postCall _ _ _ => true
  | _ => false

/-- The policy identifiers of the delivery attempts in a trace, in order. -/
def postPids (trace : List Event) : List Nat :=
  trace.filterMap (fun ev =>
    match ev with
    | .postCall pid _ _ => some pid
    | _ => none)

/-- Whether a cycle error is a delivery (post) failure. -/
def CycleErr.isDelivery : CycleErr → Bool
  | .post _ _ => true
  | _ => false

/-- The destination address the loop body reads from the configuration. -/
def destOf (cfg : AppConfig) : String :=
  cfg.WebhookSettings.FailingPoliciesWebhook.DestinationURL

/-- The payload the loop body builds from a policy and its snapshot. -/
def mkPayload (cfg : AppConfig) (now : Nat) (pol : Policy)
    (hosts : List PolicySetHost) : FailingPoliciesPayload :=
  { Timestamp := now, Policy := pol,
    FailingHosts := hosts.map (fun h => makeFailingHost h cfg.ServerSettings.ServerURL) }

/-- The error outcome of the `RemoveHosts` step of one iteration. -/
def remErrOf (pid : Nat) : Except String Unit → Option CycleErr
  | .error msg => some (.removeHosts pid msg)
  | .ok _ => none

/-! ### Concrete fixtures (the end-to-end scenario of spec §8) -/

def diskEncryptionPolicy : Policy :=
  { ID := 7, Name := "Disk encryption enabled", Description := "", Resolution := ""
    Query := "", Platform := "" }

/-- Enabled configuration monitoring policy 7. -/
def cfgOn : AppConfig :=
  { WebhookSettings :=
      { FailingPoliciesWebhook :=
          { Enable := true
            DestinationURL := "https://example.org/hook"
            PolicyIDs := [7] } }
    ServerSettings := { ServerURL := "https://fleet.example.com" } }

/-- The same configuration with the webhook disabled. -/
def cfgOff : AppConfig :=
  { WebhookSettings :=
      { FailingPoliciesWebhook :=
          { Enable := false
            DestinationURL := "https://example.org/hook"
            PolicyIDs := [7] } }
    ServerSettings := { ServerURL := "https://fleet.example.com" } }

def hostsAB : List PolicySetHost :=
  [{ ID := 101, Hostname := "alice-laptop" }, { ID := 102, Hostname := "bob-laptop" }]

/-- Policy 7 exists, its failing set holds two hosts, delivery and removal
succeed. -/
def envOk : Env :=
  { policy := fun pid => if pid = 7 then .found diskEncryptionPolicy else .noRows
    listHosts := fun _ => .ok hostsAB
    post := fun _ _ => .ok ()
    removeHosts := fun _ _ => .ok () }

/-- Policy 7 exists but its failing-host snapshot is empty. -/
def envEmpty : Env :=
  { policy := fun pid => if pid = 7 then .found diskEncryptionPolicy else .noRows
    listHosts := fun _ => .ok []
    post := fun _ _ => .ok ()
    removeHosts := fun _ _ => .ok () }

/-- The metadata store fails (other than not-found) for every policy. -/
def envStoreDown : Env :=
  { policy := fun _ => .storeErr "store down"
    listHosts := fun _ => .ok hostsAB
    post := fun _ _ => .ok ()
    removeHosts := fun _ _ => .ok () }

/-- Initial store state for the two-run scenario: policy 7 has the two
failing hosts, every other policy has none. -/
def setAB : FPSet := fun pid => if pid = 7 then hostsAB else []

/-- A transport that always accepts. -/
def postAccept : String → FailingPoliciesPayload → Except String Unit :=
  fun _ _ => .ok ()

/-- Policy catalog for the two-run scenario. -/
def catalogSeven : Nat → PolicyLookup :=
  fun pid => if pid = 7 then .found diskEncryptionPolicy else .noRows

/-- Enabled configuration monitoring policies 7 and 8, in that order. -/
def cfgTwo : AppConfig :=
  { WebhookSettings :=
      { FailingPoliciesWebhook :=
          { Enable := true
            DestinationURL := "https://example.org/hook"
            PolicyIDs := [7, 8] } }
    ServerSettings := { ServerURL := "https://fleet.example.com" } }

/-! ## Theorems -/

/-- Complete case analysis of one loop iteration of
`TriggerFailingPoliciesWebhook`: the five control paths through the body
(skip on not-found, metadata store error, `ListHosts` error, delivery
error, delivery success), each with the calls it performs and the error
it raises. -/
theorem processPolicy_spec (env : Env) (cfg : AppConfig) (now pid : Nat) :
    (env.policy pid = .noRows ∧
      processPolicy env cfg now pid = ([.policyLookup pid], none)) ∨
    (∃ msg, env.policy pid = .storeErr msg ∧
      processPolicy env cfg now pid = ([.policyLookup pid], some (.policyLoad pid msg))) ∨
    (∃ pol msg, env.policy pid = .found pol ∧ env.listHosts pid = .error msg ∧
      processPolicy env cfg now pid =
        ([.policyLookup pid, .listHostsCall pid], some (.listHosts pid msg))) ∨
    (∃ pol hosts msg, env.policy pid = .found pol ∧ env.listHosts pid = .ok hosts ∧
      env.post (destOf cfg) (mkPayload cfg now pol hosts) = .error msg ∧
      processPolicy env cfg now pid =
        ([.policyLookup pid, .listHostsCall pid,
          .postCall pid (destOf cfg) (mkPayload cfg now pol hosts)],
          some (.post (destOf cfg) msg))) ∨
    (∃ pol hosts, env.policy pid = .found pol ∧ env.listHosts pid = .ok hosts ∧
      env.post (destOf cfg) (mkPayload cfg now pol hosts) = .ok () ∧
      processPolicy env cfg now pid =
        ([.policyLookup pid, .listHostsCall pid,
          .postCall pid (destOf cfg) (mkPayload cfg now pol hosts),
          .removeHostsCall pid hosts], remErrOf pid (env.removeHosts pid hosts))) := by
  rcases hpol : env.policy pid with pol | _ | msg
  · rcases hlist : env.listHosts pid with msg | hosts
    · exact .inr (.inr (.inl ⟨pol, msg, rfl, rfl, by
        simp [processPolicy, hpol, hlist]⟩))
    · rcases hpost : env.post (destOf cfg) (mkPayload cfg now pol hosts) with msg | u
      · refine .inr (.inr (.inr (.inl ⟨pol, hosts, msg, rfl, rfl, hpost, ?_⟩)))
        have hpost2 := hpost
        simp only [destOf, mkPayload] at hpost2
        simp [processPolicy, hpol, hlist, hpost2, destOf, mkPayload]
      · cases u
        refine .inr (.inr (.inr (.inr ⟨pol, hosts, rfl, rfl, hpost, ?_⟩)))
        have hpost2 := hpost
        simp only [destOf, mkPayload] at hpost2
        rcases hrem : env.removeHosts pid hosts with msg | u
        · simp [processPolicy, hpol, hlist, hpost2, hrem, destOf, mkPayload, remErrOf]
        · cases u
          simp [processPolicy, hpol, hlist, hpost2, hrem, destOf, mkPayload, remErrOf]
  · exact .inl ⟨rfl, by simp [processPolicy, hpol]⟩
  · exact .inr (.inl ⟨msg, rfl, by simp [processPolicy, hpol]⟩)

/-- Every call performed by an iteration is tagged with the policy identifier
of that iteration. -/
theorem processPolicy_pid (env : Env) (cfg : AppConfig) (now pid : Nat) :
    ∀ ev ∈ (processPolicy env cfg now pid).1, eventPid ev = pid := by
  intro ev hev
  rcases processPolicy_spec env cfg now pid with
    ⟨_, heq⟩ | ⟨msg, _, heq⟩ | ⟨pol, msg, _, _, heq⟩ |
    ⟨pol, hosts, msg, _, _, _, heq⟩ | ⟨pol, hosts, _, _, _, heq⟩ <;>
    rw [heq] at hev <;> fin_cases hev <;> rfl

/-- Inversion: a delivery attempt recorded by an iteration is addressed to
the configured destination and carries exactly the payload built from the
policy record and the `ListHosts` snapshot. -/
theorem postCall_mem_processPolicy (env : Env) (cfg : AppConfig) (now pid q : Nat)
    (u : String) (pl : FailingPoliciesPayload)
    (h : Event.postCall q u pl ∈ (processPolicy env cfg now pid).1) :
    q = pid ∧ u = destOf cfg ∧
    ∃ pol hosts, env.policy pid = .found pol ∧ env.listHosts pid = .ok hosts ∧
      pl = mkPayload cfg now pol hosts := by
  rcases processPolicy_spec env cfg now pid with
    ⟨_, heq⟩ | ⟨msg, _, heq⟩ | ⟨pol, msg, _, _, heq⟩ |
    ⟨pol, hosts, msg, hpol, hlist, _, heq⟩ | ⟨pol, hosts, hpol, hlist, _, heq⟩ <;>
    rw [heq] at h <;> simp at h
  · obtain ⟨rfl, rfl, rfl⟩ := h
    exact ⟨rfl, rfl, pol, hosts, hpol, hlist, rfl⟩
  · obtain ⟨rfl, rfl, rfl⟩ := h
    exact ⟨rfl, rfl, pol, hosts, hpol, hlist, rfl⟩

/-- Inversion: a pruning call recorded by an iteration removes exactly the
`ListHosts` snapshot of that iteration, and only after its delivery
attempt was accepted. -/
theorem removeCall_mem_processPolicy (env : Env) (cfg : AppConfig) (now pid q : Nat)
    (hs : List PolicySetHost)
    (h : Event.removeHostsCall q hs ∈ (processPolicy env cfg now pid).1) :
    q = pid ∧ env.listHosts pid = .ok hs ∧
    ∃ pol, env.policy pid = .found pol ∧
      env.post (destOf cfg) (mkPayload cfg now pol hs) = .ok () := by
  rcases processPolicy_spec env cfg now pid with
    ⟨_, heq⟩ | ⟨msg, _, heq⟩ | ⟨pol, msg, _, _, heq⟩ |
    ⟨pol, hosts, msg, hpol, hlist, _, heq⟩ | ⟨pol, hosts, hpol, hlist, hpost, heq⟩ <;>
    rw [heq] at h <;> simp at h
  obtain ⟨rfl, rfl⟩ := h
  exact ⟨rfl, hlist, pol, hpol, hpost⟩

/-- When an iteration fails with a delivery error, it performs no pruning
call. -/
theorem deliveryErr_no_remove (env : Env) (cfg : AppConfig) (now pid : Nat)
    (e : CycleErr) (herr : (processPolicy env cfg now pid).2 = some e)
    (hdel : e.isDelivery = true) :
    ∀ hs, Event.removeHostsCall pid hs ∉ (processPolicy env cfg now pid).1 := by
  intro hs hmem
  rcases processPolicy_spec env cfg now pid with
    ⟨_, heq⟩ | ⟨msg, _, heq⟩ | ⟨pol, msg, _, _, heq⟩ |
    ⟨pol, hosts, msg, _, _, _, heq⟩ | ⟨pol, hosts, _, _, _, heq⟩ <;>
    rw [heq] at herr hmem
  · simp at herr
  · simp at herr
    subst herr
    simp [CycleErr.isDelivery] at hdel
  · simp at herr
    subst herr
    simp [CycleErr.isDelivery] at hdel
  · -- delivery-error path: the event list holds no pruning call
    simp at hmem
  · -- delivery-success path: the iteration error is the RemoveHosts outcome
    revert herr
    rcases env.removeHosts pid hosts with msg | u <;> intro herr <;>
      simp [remErrOf] at herr
    subst herr
    simp [CycleErr.isDelivery] at hdel

/-- Unfolding of the loop when the head iteration completes without a
fatal error (including the not-found skip). -/
theorem runPolicies_cons_ok (env : Env) (cfg : AppConfig) (now pid : Nat)
    (rest : List Nat) (h : (processPolicy env cfg now pid).2 = none) :
    runPolicies env cfg now (pid :: rest) =
      ((processPolicy env cfg now pid).1 ++ (runPolicies env cfg now rest).1,
        (runPolicies env cfg now rest).2) := by
  rcases hp : processPolicy env cfg now pid with ⟨evs, err⟩
  have h2 : err = none := by rw [hp] at h; exact h
  subst h2
  simp [runPolicies, hp]

/-- Unfolding of the loop when the head iteration raises a fatal error:
the loop stops there and returns that error. -/
theorem runPolicies_cons_err (env : Env) (cfg : AppConfig) (now pid : Nat)
    (rest : List Nat) (e : CycleErr)
    (h : (processPolicy env cfg now pid).2 = some e) :
    runPolicies env cfg now (pid :: rest) = ((processPolicy env cfg now pid).1, some e) := by
  rcases hp : processPolicy env cfg now pid with ⟨evs, err⟩
  have h2 : err = some e := by rw [hp] at h; exact h
  subst h2
  simp [runPolicies, hp]

/-- Every call in the loop trace was performed by the iteration of some
configured identifier. -/
theorem mem_runPolicies (env : Env) (cfg : AppConfig) (now : Nat)
    (l : List Nat) (ev : Event) (h : ev ∈ (runPolicies env cfg now l).1) :
    ∃ pid, pid ∈ l ∧ ev ∈ (processPolicy env cfg now pid).1 := by
  induction l with
  | nil => simp [runPolicies] at h
  | cons pid rest ih =>
    rcases herr : (processPolicy env cfg now pid).2 with _ | e
    · rw [runPolicies_cons_ok env cfg now pid rest herr] at h
      rcases List.mem_append.mp h with h1 | h2
      · exact ⟨pid, List.mem_cons_self .., h1⟩
      · obtain ⟨q, hq, hq2⟩ := ih h2
        exact ⟨q, List.mem_cons_of_mem _ hq, hq2⟩
    · rw [runPolicies_cons_err env cfg now pid rest e herr] at h
      exact ⟨pid, List.mem_cons_self .., h⟩

/-- When every iteration before `p` succeeds and the iteration of `p` raises a
fatal error, the loop returns that error and performs calls only for the
identifiers up to and including `p`. -/
theorem runPolicies_fatal (env : Env) (cfg : AppConfig) (now : Nat)
    (l1 l2 : List Nat) (p : Nat) (e : CycleErr)
    (h1 : ∀ q ∈ l1, (processPolicy env cfg now q).2 = none)
    (hp : (processPolicy env cfg now p).2 = some e) :
    (runPolicies env cfg now (l1 ++ p :: l2)).2 = some e ∧
    ∀ ev ∈ (runPolicies env cfg now (l1 ++ p :: l2)).1, eventPid ev ∈ l1 ++ [p] := by
  induction l1 with
  | nil =>
    simp only [List.nil_append]
    rw [runPolicies_cons_err env cfg now p l2 e hp]
    exact ⟨rfl, fun ev hev => by simp [processPolicy_pid env cfg now p ev hev]⟩
  | cons q rest ih =>
    have hq := h1 q (List.mem_cons_self ..)
    have hrest : ∀ r ∈ rest, (processPolicy env cfg now r).2 = none :=
      fun r hr => h1 r (List.mem_cons_of_mem _ hr)
    obtain ⟨ih1, ih2⟩ := ih hrest
    rw [List.cons_append, runPolicies_cons_ok env cfg now q _ hq]
    refine ⟨ih1, ?_⟩
    intro ev hev
    rcases List.mem_append.mp hev with hl | hr
    · have := processPolicy_pid env cfg now q ev hl
      simp [this]
    · have := ih2 ev hr
      simp only [List.cons_append, List.mem_cons]
      right
      simpa using this

/-- An iteration performs at most one delivery attempt, tagged with its
own policy identifier. -/
theorem postPids_processPolicy (env : Env) (cfg : AppConfig) (now pid : Nat) :
    postPids (processPolicy env cfg now pid).1 = [] ∨
    postPids (processPolicy env cfg now pid).1 = [pid] := by
  rcases processPolicy_spec env cfg now pid with
    ⟨_, heq⟩ | ⟨msg, _, heq⟩ | ⟨pol, msg, _, _, heq⟩ |
    ⟨pol, hosts, msg, _, _, _, heq⟩ | ⟨pol, hosts, _, _, _, heq⟩ <;> rw [heq]
  · exact .inl rfl
  · exact .inl rfl
  · exact .inl rfl
  · exact .inr rfl
  · exact .inr rfl

/-- The policy identifiers of the delivery attempts of the loop form an ordered
subsequence of the identifier list being iterated. -/
theorem runPolicies_postPids_sublist (env : Env) (cfg : AppConfig) (now : Nat)
    (l : List Nat) : (postPids (runPolicies env cfg now l).1).Sublist l := by
  induction l with
  | nil => exact List.nil_sublist _
  | cons pid rest ih =>
    rcases herr : (processPolicy env cfg now pid).2 with _ | e
    · have hfst : (runPolicies env cfg now (pid :: rest)).1 =
          (processPolicy env cfg now pid).1 ++ (runPolicies env cfg now rest).1 := by
        rw [runPolicies_cons_ok env cfg now pid rest herr]
      rw [hfst, show postPids ((processPolicy env cfg now pid).1 ++
            (runPolicies env cfg now rest).1) =
          postPids (processPolicy env cfg now pid).1 ++
            postPids (runPolicies env cfg now rest).1 from by simp [postPids]]
      rcases postPids_processPolicy env cfg now pid with h | h <;> rw [h]
      · exact ih.cons pid
      · exact ih.cons₂ pid
    · have hfst : (runPolicies env cfg now (pid :: rest)).1 =
          (processPolicy env cfg now pid).1 := by
        rw [runPolicies_cons_err env cfg now pid rest e herr]
      rw [hfst]
      rcases postPids_processPolicy env cfg now pid with h | h <;> rw [h]
      · exact List.nil_sublist _
      · exact (List.nil_sublist rest).cons₂ pid

/-- Every call in the trace of the cycle was performed by the iteration of some
configured policy identifier. -/
theorem mem_trigger (env : Env) (cfg : AppConfig) (now : Nat) (ev : Event)
    (h : ev ∈ (TriggerFailingPoliciesWebhook env cfg now).1) :
    ∃ pid, pid ∈ cfg.WebhookSettings.FailingPoliciesWebhook.PolicyIDs ∧
      ev ∈ (processPolicy env cfg now pid).1 := by
  unfold TriggerFailingPoliciesWebhook at h
  cases hen : cfg.WebhookSettings.FailingPoliciesWebhook.Enable <;> rw [hen] at h
  · rw [if_neg (by simp)] at h
    simp at h
  · rw [if_pos rfl] at h
    exact mem_runPolicies env cfg now _ ev h

/-! ## Claims -/

/-- C1 (counterevidence): the claim says a policy with an empty
failing-host snapshot gets no delivery attempt and no `RemoveHosts`
mutation. The code has no empty-snapshot check: with the webhook enabled,
policy 7 present and `ListHosts` returning the empty list, the cycle still
posts a zero-host payload and still calls `RemoveHosts` with the empty
list before returning success. -/
theorem trigger_posts_on_empty_snapshot :
    TriggerFailingPoliciesWebhook envEmpty cfgOn 0 =
      ([.policyLookup 7, .listHostsCall 7,
        .postCall 7 (destOf cfgOn)
          { Timestamp := 0, Policy := diskEncryptionPolicy, FailingHosts := [] },
        .removeHostsCall 7 []], none) := by
  rfl

/-- C2 (counterevidence): the claim says the derived deep-link URL equals
the base address followed by `/hosts/` and the decimal host id, with
`https://fleet.example.com` and 42 yielding
`https://fleet.example.com/hosts/42`. The code builds the URL with the Go
function `path.Join`, whose cleaning collapses the double slash after the scheme,
yielding `https:/fleet.example.com/hosts/42` instead. -/
theorem makeFailingHost_collapses_scheme :
    makeFailingHost { ID := 42, Hostname := "alice-laptop" } "https://fleet.example.com" =
      { ID := 42, Hostname := "alice-laptop",
        URL := "https:/fleet.example.com/hosts/42" } ∧
    "https:/fleet.example.com/hosts/42" ≠ "https://fleet.example.com/hosts/42" :=
  ⟨by decide, by decide⟩

/-- C3: if the iteration of the policy at position `p` of the configured
list raises a fatal error (metadata store error other than not-found,
`ListHosts` store error, delivery failure, or `RemoveHosts` store error)
and every earlier iteration completed, then the cycle returns that error,
performs no call for any identifier after `p`, and — when the fatal error
is a delivery failure — performs no `RemoveHosts` call in the iteration
of `p`. -/
theorem trigger_fatal_error_aborts (env : Env) (cfg : AppConfig) (now : Nat)
    (l1 l2 : List Nat) (p : Nat) (e : CycleErr)
    (hen : cfg.WebhookSettings.FailingPoliciesWebhook.Enable = true)
    (hids : cfg.WebhookSettings.FailingPoliciesWebhook.PolicyIDs = l1 ++ p :: l2)
    (h1 : ∀ q ∈ l1, (processPolicy env cfg now q).2 = none)
    (hp : (processPolicy env cfg now p).2 = some e) :
    (TriggerFailingPoliciesWebhook env cfg now).2 = some e ∧
    (∀ ev ∈ (TriggerFailingPoliciesWebhook env cfg now).1, eventPid ev ∈ l1 ++ [p]) ∧
    (e.isDelivery = true →
      ∀ hs, Event.removeHostsCall p hs ∉ (processPolicy env cfg now p).1) := by
  have h := runPolicies_fatal env cfg now l1 l2 p e h1 hp
  have ht : TriggerFailingPoliciesWebhook env cfg now =
      runPolicies env cfg now (l1 ++ p :: l2) := by
    unfold TriggerFailingPoliciesWebhook
    rw [hen, hids, if_pos rfl]
  rw [ht]
  exact ⟨h.1, h.2, fun hdel => deliveryErr_no_remove env cfg now p e hp hdel⟩

theorem trigger_fatal_error_aborts_witness :
    (TriggerFailingPoliciesWebhook envStoreDown cfgTwo 0).2 =
        some (.policyLoad 7 "store down") ∧
    (∀ ev ∈ (TriggerFailingPoliciesWebhook envStoreDown cfgTwo 0).1,
        eventPid ev ∈ [] ++ [7]) ∧
    ((CycleErr.policyLoad 7 "store down").isDelivery = true →
      ∀ hs, Event.removeHostsCall 7 hs ∉ (processPolicy envStoreDown cfgTwo 0 7).1) :=
  trigger_fatal_error_aborts envStoreDown cfgTwo 0 [] [8] 7
    (.policyLoad 7 "store down") rfl rfl (by simp) rfl

/-- C4: when the delivery attempt for a policy succeeds, that iteration
calls `RemoveHosts` with exactly the `ListHosts` snapshot, and every
`RemoveHosts` call anywhere in the cycle passes exactly the snapshot of
its policy — no more and no fewer hosts — so hosts added to the set after
the snapshot are never pruned. -/
theorem remove_called_with_exact_snapshot (env : Env) (cfg : AppConfig)
    (now pid : Nat) (pol : Policy) (hosts : List PolicySetHost)
    (hpol : env.policy pid = .found pol)
    (hlist : env.listHosts pid = .ok hosts)
    (hpost : env.post (destOf cfg) (mkPayload cfg now pol hosts) = .ok ()) :
    Event.removeHostsCall pid hosts ∈ (processPolicy env cfg now pid).1 ∧
    ∀ hs, Event.removeHostsCall pid hs ∈ (TriggerFailingPoliciesWebhook env cfg now).1 →
      hs = hosts := by
  constructor
  · have hpost2 := hpost
    simp only [destOf, mkPayload] at hpost2
    rcases hrem : env.removeHosts pid hosts with msg | u <;>
      simp [processPolicy, hpol, hlist, hpost2, hrem]
  · intro hs hmem
    obtain ⟨q, -, hq⟩ := mem_trigger env cfg now _ hmem
    obtain ⟨rfl, hlist2, -⟩ := removeCall_mem_processPolicy env cfg now q pid hs hq
    rw [hlist] at hlist2
    exact (Except.ok.inj hlist2).symm

theorem remove_called_with_exact_snapshot_witness :
    Event.removeHostsCall 7 hostsAB ∈ (processPolicy envOk cfgOn 0 7).1 ∧
    ∀ hs, Event.removeHostsCall 7 hs ∈ (TriggerFailingPoliciesWebhook envOk cfgOn 0).1 →
      hs = hostsAB :=
  remove_called_with_exact_snapshot envOk cfgOn 0 7 diskEncryptionPolicy hostsAB
    rfl rfl rfl

/-- C5: when the webhook enable flag is false the cycle returns success
at once, with an empty trace — zero catalog reads, zero
`ListHosts`/`RemoveHosts` calls and zero delivery attempts. -/
theorem trigger_disabled_no_calls (env : Env) (cfg : AppConfig) (now : Nat)
    (h : cfg.WebhookSettings.FailingPoliciesWebhook.Enable = false) :
    TriggerFailingPoliciesWebhook env cfg now = ([], none) := by
  unfold TriggerFailingPoliciesWebhook
  rw [h, if_neg (by simp)]

theorem trigger_disabled_no_calls_witness :
    TriggerFailingPoliciesWebhook envOk cfgOff 0 = ([], none) :=
  trigger_disabled_no_calls envOk cfgOff 0 rfl

/-- C6: an identifier whose metadata lookup reports not-found (deleted
policy) is skipped — its iteration performs only the catalog read, no
`ListHosts`, delivery or `RemoveHosts` — raises no error, and the loop
continues with the remaining identifiers. -/
theorem deleted_policy_skipped (env : Env) (cfg : AppConfig) (now pid : Nat)
    (h : env.policy pid = .noRows) :
    processPolicy env cfg now pid = ([.policyLookup pid], none) ∧
    ∀ rest, runPolicies env cfg now (pid :: rest) =
      (Event.policyLookup pid :: (runPolicies env cfg now rest).1,
        (runPolicies env cfg now rest).2) := by
  have h1 : processPolicy env cfg now pid = ([.policyLookup pid], none) := by
    simp [processPolicy, h]
  refine ⟨h1, fun rest => ?_⟩
  rw [runPolicies_cons_ok env cfg now pid rest (by rw [h1]), h1]
  rfl

theorem deleted_policy_skipped_witness :
    processPolicy envOk cfgOn 0 9 = ([.policyLookup 9], none) ∧
    ∀ rest, runPolicies envOk cfgOn 0 (9 :: rest) =
      (Event.policyLookup 9 :: (runPolicies envOk cfgOn 0 rest).1,
        (runPolicies envOk cfgOn 0 rest).2) :=
  deleted_policy_skipped envOk cfgOn 0 9 rfl

/-- C7 (counterevidence): with policy 7 monitored, its set holding two
hosts, an accepting transport and no failures added between runs, the
first run succeeds and leaves the set of policy 7 empty, yet running the cycle
a second time performs a second delivery attempt (with a zero-host
payload) — two attempts in total, where the claim says exactly one. -/
theorem two_runs_post_twice :
    (TriggerOnSet catalogSeven postAccept cfgOn 0 setAB).2.2 = none ∧
    (TriggerOnSet catalogSeven postAccept cfgOn 0 setAB).2.1 7 = [] ∧
    postPids ((TriggerOnSet catalogSeven postAccept cfgOn 0 setAB).1 ++
      (TriggerOnSet catalogSeven postAccept cfgOn 0
        (TriggerOnSet catalogSeven postAccept cfgOn 0 setAB).2.1).1) = [7, 7] := by
  refine ⟨rfl, ?_, ?_⟩ <;> rfl

/-- C8: the policy identifiers of the delivery attempts of the cycle form an
ordered subsequence of the configured monitored-policy list — attempts
happen in configuration order — and for a duplicate-free monitored list at
most one delivery attempt is made per policy. -/
theorem delivery_attempts_in_config_order (env : Env) (cfg : AppConfig) (now : Nat) :
    (postPids (TriggerFailingPoliciesWebhook env cfg now).1).Sublist
      cfg.WebhookSettings.FailingPoliciesWebhook.PolicyIDs ∧
    (cfg.WebhookSettings.FailingPoliciesWebhook.PolicyIDs.Nodup →
      ∀ pid, (postPids (TriggerFailingPoliciesWebhook env cfg now).1).count pid ≤ 1) := by
  have hsub : (postPids (TriggerFailingPoliciesWebhook env cfg now).1).Sublist
      cfg.WebhookSettings.FailingPoliciesWebhook.PolicyIDs := by
    unfold TriggerFailingPoliciesWebhook
    cases hen : cfg.WebhookSettings.FailingPoliciesWebhook.Enable
    · rw [if_neg (by simp)]
      exact List.nil_sublist _
    · rw [if_pos rfl]
      exact runPolicies_postPids_sublist env cfg now _
  exact ⟨hsub, fun hnd pid =>
    le_trans (hsub.count_le pid) (List.nodup_iff_count_le_one.mp hnd pid)⟩

theorem delivery_attempts_in_config_order_witness :
    (postPids (TriggerFailingPoliciesWebhook envOk cfgOn 0).1).Sublist
      cfgOn.WebhookSettings.FailingPoliciesWebhook.PolicyIDs ∧
    ∀ pid, (postPids (TriggerFailingPoliciesWebhook envOk cfgOn 0).1).count pid ≤ 1 :=
  ⟨(delivery_attempts_in_config_order envOk cfgOn 0).1,
    (delivery_attempts_in_config_order envOk cfgOn 0).2 (by decide)⟩

/-- C9: the payload serializes as an object with exactly the top-level
members `timestamp` (the invocation time), `policy` (the policy record)
and `hosts` (the failing hosts in order), and every entry of `hosts` is an
object with exactly the members `id`, `hostname` and `url`. -/
theorem payload_wire_shape (p : FailingPoliciesPayload) :
    jsonFieldNames p.toJson = ["timestamp", "policy", "hosts"] ∧
    p.toJson = Json.obj
      [("timestamp", Json.num p.Timestamp), ("policy", p.Policy.toJson),
        ("hosts", Json.arr (p.FailingHosts.map FailingHost.toJson))] ∧
    ∀ h ∈ p.FailingHosts.map FailingHost.toJson,
      jsonFieldNames h = ["id", "hostname", "url"] := by
  refine ⟨rfl, rfl, ?_⟩
  intro h hm
  obtain ⟨fh, -, rfl⟩ := List.mem_map.mp hm
  rfl

theorem payload_wire_shape_witness :
    jsonFieldNames (FailingPoliciesPayload.toJson
        (mkPayload cfgOn 0 diskEncryptionPolicy hostsAB)) =
      ["timestamp", "policy", "hosts"] ∧
    FailingPoliciesPayload.toJson (mkPayload cfgOn 0 diskEncryptionPolicy hostsAB) =
      Json.obj
        [("timestamp", Json.num (mkPayload cfgOn 0 diskEncryptionPolicy hostsAB).Timestamp),
          ("policy", (mkPayload cfgOn 0 diskEncryptionPolicy hostsAB).Policy.toJson),
          ("hosts", Json.arr ((mkPayload cfgOn 0 diskEncryptionPolicy
            hostsAB).FailingHosts.map FailingHost.toJson))] ∧
    ∀ h ∈ (mkPayload cfgOn 0 diskEncryptionPolicy hostsAB).FailingHosts.map
        FailingHost.toJson,
      jsonFieldNames h = ["id", "hostname", "url"] :=
  payload_wire_shape (mkPayload cfgOn 0 diskEncryptionPolicy hostsAB)

/-- C10: every payload posted by the cycle carries exactly the `ListHosts`
snapshot of its policy, mapped positionally: same length, same order, the
i-th entry keeps the id and hostname of the i-th snapshot host unchanged, and
only the url member is newly derived from the server base address and the
host id. -/
theorem payload_hosts_preserve_snapshot (env : Env) (cfg : AppConfig)
    (now pid : Nat) (u : String) (pl : FailingPoliciesPayload)
    (hmem : Event.postCall pid u pl ∈ (TriggerFailingPoliciesWebhook env cfg now).1) :
    ∃ hosts, env.listHosts pid = .ok hosts ∧
      pl.FailingHosts = hosts.map
        (fun x => makeFailingHost x cfg.ServerSettings.ServerURL) ∧
      pl.FailingHosts.length = hosts.length ∧
      ∀ (i : Nat) (h : PolicySetHost) (fh : FailingHost),
        hosts[i]? = some h → pl.FailingHosts[i]? = some fh →
        fh.ID = h.ID ∧ fh.Hostname = h.Hostname ∧
        fh.URL = pathJoin [cfg.ServerSettings.ServerURL, "hosts", toString h.ID] := by
  obtain ⟨q, -, hq⟩ := mem_trigger env cfg now _ hmem
  obtain ⟨rfl, -, pol, hosts, -, hlist, rfl⟩ :=
    postCall_mem_processPolicy env cfg now q pid u pl hq
  refine ⟨hosts, hlist, rfl, by simp [mkPayload], ?_⟩
  intro i h fh hh hfh
  have hmap : (mkPayload cfg now pol hosts).FailingHosts[i]? =
      (hosts[i]?).map (fun x => makeFailingHost x cfg.ServerSettings.ServerURL) := by
    simp [mkPayload]
  rw [hmap, hh] at hfh
  simp at hfh
  subst hfh
  exact ⟨rfl, rfl, rfl⟩

theorem payload_hosts_preserve_snapshot_witness :
    ∃ hosts, envOk.listHosts 7 = .ok hosts ∧
      (mkPayload cfgOn 0 diskEncryptionPolicy hostsAB).FailingHosts =
        hosts.map (fun x => makeFailingHost x cfgOn.ServerSettings.ServerURL) ∧
      (mkPayload cfgOn 0 diskEncryptionPolicy hostsAB).FailingHosts.length =
        hosts.length ∧
      ∀ (i : Nat) (h : PolicySetHost) (fh : FailingHost), hosts[i]? = some h →
        (mkPayload cfgOn 0 diskEncryptionPolicy hostsAB).FailingHosts[i]? = some fh →
        fh.ID = h.ID ∧ fh.Hostname = h.Hostname ∧
        fh.URL = pathJoin [cfgOn.ServerSettings.ServerURL, "hosts", toString h.ID] :=
  payload_hosts_preserve_snapshot envOk cfgOn 0 7 (destOf cfgOn)
    (mkPayload cfgOn 0 diskEncryptionPolicy hostsAB) (by
      have ht : (TriggerFailingPoliciesWebhook envOk cfgOn 0).1 =
          [.policyLookup 7, .listHostsCall 7,
            .postCall 7 (destOf cfgOn) (mkPayload cfgOn 0 diskEncryptionPolicy hostsAB),
            .removeHostsCall 7 hostsAB] := rfl
      rw [ht]
      simp)

end Webhooks
